import Mathlib

/-!
Verification of the Trino offline-store query compiler (`feast_trino/trino.py`).

The development shallowly embeds the relational semantics of the two SQL
generators in that file:

* `MULTIPLE_FEATURE_VIEW_POINT_IN_TIME_JOIN` — the templated point-in-time
  join (CTEs `entity_dataframe`, `<fv>__entity_dataframe`, `<fv>__subquery`,
  `<fv>__base`, `<fv>__dedup`, `<fv>__latest`, `<fv>__cleaned` and the final
  `LEFT JOIN` assembly);
* `TrinoOfflineStore.pull_latest_from_table_or_query` — the snapshot
  (latest-row-per-join-key) query, plus its type guards;
* `TrinoRetrievalJob.to_trino` — the `CREATE TABLE AS` export;
* `_upload_entity_df_and_get_entity_schema` — the entity-table type check.

Rows are modelled as total assignments of integer values to column names
(`Row := String → Int`); timestamps are integer epoch seconds, so the SQL
`interval '<ttl>' second` arithmetic becomes integer subtraction.  `CAST(x AS
VARCHAR)` becomes `toString` and `CONCAT` becomes string append, matching the
`<fv>__entity_row_unique_id` computation.  SQL aggregate subqueries over an
empty table yield `NULL`; this is modelled by `Option` results of `aggMax` /
`aggMin` (a comparison against `none` filters the row out, as in SQL).
-/

namespace FeastTrino

/-- A database row: a total assignment of integer values to column names.
Timestamps are integer epoch seconds. -/
abbrev Row : Type := String → Int

/-- SQL `SELECT MAX(col) FROM t`: `none` on an empty table (SQL `NULL`). -/
def aggMax : List Int → Option Int
  | [] => none
  | x :: xs =>
    match aggMax xs with
    | none => some x
    | some m => some (max x m)

/-- SQL `SELECT MIN(col) FROM t`: `none` on an empty table (SQL `NULL`). -/
def aggMin : List Int → Option Int
  | [] => none
  | x :: xs =>
    match aggMin xs with
    | none => some x
    | some m => some (min x m)

/-- The row selected by `ROW_NUMBER() OVER (... ORDER BY key DESC) = 1` on one
partition: the first row of the list attaining the maximal `key`.  SQL leaves
the tie-break among equal keys unspecified; keeping the earliest row of the
list is one admissible determinisation. -/
def pickBest {α : Type} {κ : Type} [LinearOrder κ] (key : α → κ) : List α → Option α
  | [] => none
  | b :: rest =>
    some ((pickBest key rest).elim b (fun a => if key b < key a then a else b))

/-- The per-feature-view data of the Jinja query context
(`offline_utils.FeatureViewQueryContext`) that the template reads:
`featureview.name`, `featureview.entities` (join-key column names),
`featureview.features`, `featureview.event_timestamp_column`,
`featureview.created_timestamp_column` and `featureview.ttl` (seconds,
`0` meaning unbounded look-back). -/
structure FeatureViewContext where
  name : String
  entities : List String
  features : List String
  eventTimestampColumn : String
  createdTimestampColumn : Option String
  ttl : Nat
  deriving DecidableEq

/-- `feast.feature_view.DUMMY_ENTITY_ID`: the join key of the sentinel
entity feast substitutes for feature views without entities. -/
def DUMMY_ENTITY_ID : String := "__dummy_id"

/-- `feast.feature_view.DUMMY_ENTITY_VAL`: the (empty-string) value of the
sentinel entity's join key. -/
def DUMMY_ENTITY_VAL : String := ""

/-- The `{{featureview.name}}__entity_row_unique_id` column of the
`entity_dataframe` CTE: when `featureview.entities` is non-empty,
`CONCAT(CAST(e₁ AS VARCHAR), …, CAST(eₙ AS VARCHAR), CAST(ts AS VARCHAR))`;
when it is empty, just `CAST(ts AS VARCHAR)`. -/
def entityRowUniqueId (tsCol : String) (F : FeatureViewContext) (r : Row) : String :=
  if F.entities.isEmpty then toString (r tsCol)
  else String.join (F.entities.map (fun e => toString (r e))) ++ toString (r tsCol)

/-- One row of the deduplicated per-view request table
`{{featureview.name}}__entity_dataframe`: the join-key values, the
`entity_timestamp`, and the entity-row unique id. -/
structure EntityKeyRow where
  keyVals : List Int
  entityTimestamp : Int
  uid : String
  deriving DecidableEq

/-- Projection of one request row to the columns of
`{{featureview.name}}__entity_dataframe`. -/
def projEntity (tsCol : String) (F : FeatureViewContext) (r : Row) : EntityKeyRow :=
  { keyVals := F.entities.map r
    entityTimestamp := r tsCol
    uid := entityRowUniqueId tsCol F r }

/-- The `{{featureview.name}}__entity_dataframe` CTE: the request rows
projected to `(entities, entity_timestamp, unique_id)` and deduplicated by the
`GROUP BY` over exactly those columns. -/
def entityDF (tsCol : String) (F : FeatureViewContext) (E : List Row) : List EntityKeyRow :=
  (E.map (projEntity tsCol F)).dedup

/-- Output column name of a projected feature: `{{featureview.name}}__{{feature}}`
when `full_feature_names` is requested, the bare feature name otherwise. -/
def featureAlias (full : Bool) (viewName f : String) : String :=
  if full then viewName ++ "__" ++ f else f

/-- One row of the `{{featureview.name}}__subquery` CTE: `event_timestamp`,
the optional `created_timestamp`, the selected join-key values, and the
projected (aliased) feature columns. -/
structure SubRow where
  eventTimestamp : Int
  createdTimestamp : Option Int
  keyVals : List Int
  featureCols : List (String × Int)
  deriving DecidableEq

/-- The `SELECT` list of `{{featureview.name}}__subquery` applied to one
source row. -/
def projSub (full : Bool) (F : FeatureViewContext) (s : Row) : SubRow :=
  { eventTimestamp := s F.eventTimestampColumn
    createdTimestamp := F.createdTimestampColumn.map (fun c => s c)
    keyVals := F.entities.map s
    featureCols := F.features.map (fun f => (featureAlias full F.name f, s f)) }

/-- The `WHERE` clause of `{{featureview.name}}__subquery`:
`event_timestamp <= (SELECT MAX(entity_timestamp) FROM entity_dataframe)` and,
unless `featureview.ttl == 0`,
`event_timestamp >= (SELECT MIN(entity_timestamp) FROM entity_dataframe)
 - interval '{{featureview.ttl}}' second`. -/
def prefilterCond (F : FeatureViewContext) (tsCol : String) (E : List Row) (s : Row) : Bool :=
  match aggMax (E.map (fun r => r tsCol)) with
  | none => false
  | some mx =>
    decide (s F.eventTimestampColumn ≤ mx) &&
    (F.ttl == 0 ||
      match aggMin (E.map (fun r => r tsCol)) with
      | none => false
      | some mn => decide (mn - (F.ttl : Int) ≤ s F.eventTimestampColumn))

/-- The `{{featureview.name}}__subquery` CTE: source rows pre-filtered by
`prefilterCond` and projected by `projSub`. -/
def subqueryRows (full : Bool) (F : FeatureViewContext) (tsCol : String)
    (E S : List Row) : List SubRow :=
  (S.filter (prefilterCond F tsCol E)).map (projSub full F)

/-- The `ON` condition of the `{{featureview.name}}__base` join:
`subquery.event_timestamp <= entity_dataframe.entity_timestamp`, the TTL lower
bound unless `featureview.ttl == 0`, and equality on every join-key column
(the template's per-entity `AND subquery.e = entity_dataframe.e` loop, here
equality of the join-key value lists). -/
def baseJoinCond (F : FeatureViewContext) (s : SubRow) (e : EntityKeyRow) : Bool :=
  decide (s.eventTimestamp ≤ e.entityTimestamp) &&
  (F.ttl == 0 || decide (e.entityTimestamp - (F.ttl : Int) ≤ s.eventTimestamp)) &&
  (s.keyVals == e.keyVals)

/-- The `INNER JOIN` of `{{featureview.name}}__base` as the set of joined
pairs: every (subquery row, deduplicated request row) pair satisfying
`baseJoinCond`. -/
def basePairs (full : Bool) (F : FeatureViewContext) (tsCol : String)
    (E S : List Row) : List (SubRow × EntityKeyRow) :=
  (subqueryRows full F tsCol E S).flatMap (fun s =>
    ((entityDF tsCol F E).filter (fun e => baseJoinCond F s e)).map (fun e => (s, e)))

/-- One row of the `{{featureview.name}}__base` CTE: `subquery.*` plus the
matched request row's `entity_timestamp` and entity-row unique id. -/
structure BaseRow where
  sub : SubRow
  entityTimestamp : Int
  uid : String
  deriving DecidableEq

/-- The `{{featureview.name}}__base` CTE: the joined pairs projected to
`subquery.*, entity_timestamp, unique_id`. -/
def baseRows (full : Bool) (F : FeatureViewContext) (tsCol : String)
    (E S : List Row) : List BaseRow :=
  (basePairs full F tsCol E S).map (fun p =>
    { sub := p.1, entityTimestamp := p.2.entityTimestamp, uid := p.2.uid })

/-- The `event_timestamp` column of a base row. -/
def etsVal (b : BaseRow) : Int := b.sub.eventTimestamp

/-- The `created_timestamp` column of a base row.  It is only ever read on the
code path where the feature view declares a created-timestamp column, in which
case the projection always fills it. -/
def ctsVal (b : BaseRow) : Int := b.sub.createdTimestamp.getD 0

/-- The `{{featureview.name}}__dedup` CTE's `MAX(created_timestamp)` for one
`(unique_id, event_timestamp)` group. -/
def maxCtsFor (B : List BaseRow) (u : String) (t : Int) : Option Int :=
  aggMax ((B.filter (fun b => b.uid == u && etsVal b == t)).map ctsVal)

/-- The `INNER JOIN` of `{{featureview.name}}__base` with
`{{featureview.name}}__dedup` `USING (unique_id, event_timestamp,
created_timestamp)`: since the dedup CTE groups by `(unique_id,
event_timestamp)` and keeps `MAX(created_timestamp)`, the join keeps exactly
the base rows whose created timestamp is the maximum of their group. -/
def dedupJoin (B : List BaseRow) : List BaseRow :=
  B.filter (fun b => maxCtsFor B b.uid (etsVal b) == some (ctsVal b))

/-- The distinct `entity_row_unique_id` values of a row set (the
`PARTITION BY` keys of the ranking window). -/
def uidsOf (B : List BaseRow) : List String := (B.map (fun b => b.uid)).dedup

/-- One `PARTITION BY {{featureview.name}}__entity_row_unique_id` partition. -/
def partitionOf (B : List BaseRow) (u : String) : List BaseRow :=
  B.filter (fun b => b.uid == u)

/-- The `{{featureview.name}}__latest` CTE when a created-timestamp column is
declared: per unique id, the row with `ROW_NUMBER() OVER (PARTITION BY
unique_id ORDER BY event_timestamp DESC, created_timestamp DESC) = 1`. -/
def latestWithCreated (B : List BaseRow) : List BaseRow :=
  (uidsOf B).filterMap
    (fun u => pickBest (fun b => toLex (etsVal b, ctsVal b)) (partitionOf B u))

/-- The `{{featureview.name}}__latest` CTE without a created-timestamp column:
ranking by `event_timestamp DESC` only. -/
def latestNoCreated (B : List BaseRow) : List BaseRow :=
  (uidsOf B).filterMap (fun u => pickBest etsVal (partitionOf B u))

/-- The `{{featureview.name}}__cleaned` CTE when a created-timestamp column is
declared: the ranking runs over `base INNER JOIN dedup` and the rank-1 keys
are joined back to the full base set `USING (unique_id, event_timestamp,
created_timestamp)`. -/
def cleanedWithCreated (B : List BaseRow) : List BaseRow :=
  B.filter (fun b => (latestWithCreated (dedupJoin B)).any
    (fun l => l.uid == b.uid && etsVal l == etsVal b && ctsVal l == ctsVal b))

/-- The `{{featureview.name}}__cleaned` CTE without a created-timestamp
column: the ranking runs over the base set directly and the rank-1 keys are
joined back `USING (unique_id, event_timestamp)`. -/
def cleanedNoCreated (B : List BaseRow) : List BaseRow :=
  B.filter (fun b =>
    (latestNoCreated B).any (fun l => l.uid == b.uid && etsVal l == etsVal b))

/-- The `{{featureview.name}}__cleaned` CTE, branching on whether the feature
view declares a created-timestamp column (the template's
`{% if featureview.created_timestamp_column %}` conditionals). -/
def cleanedFor (full : Bool) (F : FeatureViewContext) (tsCol : String)
    (E S : List Row) : List BaseRow :=
  match F.createdTimestampColumn with
  | some _ => cleanedWithCreated (baseRows full F tsCol E S)
  | none => cleanedNoCreated (baseRows full F tsCol E S)

/-- One output row of the final assembly: the full request row plus, for each
feature view, the matched `{{featureview.name}}__cleaned` row, if any. -/
structure FinalRow where
  entity : Row
  viewCols : List (Option BaseRow)

/-- One feature view's final `LEFT JOIN` operand restricted to the
`USING ({{featureview.name}}__entity_row_unique_id)` matches of one request
row. -/
def matchesFor (full : Bool) (tsCol : String) (E : List Row)
    (vS : FeatureViewContext × List Row) (r : Row) : List BaseRow :=
  (cleanedFor full vS.1 tsCol E vS.2).filter
    (fun b => b.uid == entityRowUniqueId tsCol vS.1 r)

/-- LEFT JOIN semantics for one request row against one view's matches: a
single all-NULL row when nothing matches, otherwise one row per match. -/
def leftOptions (l : List BaseRow) : List (Option BaseRow) :=
  if l.isEmpty then [none] else l.map some

/-- All combinations of per-view LEFT JOIN matches for one request row (the
final assembly's chain of `LEFT JOIN ... USING (...)`). -/
def optionCombos (full : Bool) (tsCol : String) (E : List Row) (r : Row) :
    List (FeatureViewContext × List Row) → List (List (Option BaseRow))
  | [] => [[]]
  | vS :: rest =>
    (leftOptions (matchesFor full tsCol E vS r)).flatMap
      (fun o => (optionCombos full tsCol E r rest).map (fun cs => o :: cs))

/-- The final assembly `SELECT ... FROM entity_dataframe LEFT JOIN ...`: one
output row per combination of per-view matches, for every request row (the
request table itself is never filtered or deduplicated here). -/
def finalRows (full : Bool) (views : List (FeatureViewContext × List Row))
    (tsCol : String) (E : List Row) : List FinalRow :=
  E.flatMap (fun r =>
    (optionCombos full tsCol E r views).map (fun cs => { entity := r, viewCols := cs }))

/-- The renaming induced by `full_feature_names`: feature column `f` of view
`F` becomes `F__f`; every other field is untouched. -/
def renameSub (F : FeatureViewContext) (sb : SubRow) : SubRow :=
  { sb with featureCols := sb.featureCols.map (fun p => (F.name ++ "__" ++ p.1, p.2)) }

/-- `renameSub` lifted to base rows. -/
def renameBase (F : FeatureViewContext) (b : BaseRow) : BaseRow :=
  { b with sub := renameSub F b.sub }

/-- `renameSub` lifted to final output rows (each view slot renamed by its own
view name). -/
def renameFinal (views : List (FeatureViewContext × List Row)) (o : FinalRow) : FinalRow :=
  { entity := o.entity
    viewCols := List.zipWith (fun vS c => c.map (renameBase vS.1)) views o.viewCols }

/-- The snapshot query's `WHERE {event_timestamp_column} BETWEEN TIMESTAMP
'{start_date}' AND TIMESTAMP '{end_date}'` filter (SQL `BETWEEN` is inclusive
on both ends). -/
def snapshotFiltered (etsCol : String) (startDate endDate : Int) (S : List Row) : List Row :=
  S.filter (fun r => decide (startDate ≤ r etsCol) && decide (r etsCol ≤ endDate))

/-- The snapshot query's `PARTITION BY` key: the row's values at the join-key
columns (the empty key when `join_key_columns` is empty, putting every row in
a single partition, as omitting `PARTITION BY` does). -/
def snapshotKeyOf (jks : List String) (r : Row) : List Int := jks.map r

/-- The snapshot query's rank-1 row of one partition: `ROW_NUMBER() OVER (...
ORDER BY event_timestamp DESC[, created_timestamp DESC]) = 1`. -/
def snapshotPick (etsCol : String) (ctsCol : Option String) (l : List Row) : Option Row :=
  match ctsCol with
  | some c => pickBest (fun r => toLex (r etsCol, r c)) l
  | none => pickBest (fun r => r etsCol) l

/-- The rows returned by `pull_latest_from_table_or_query`'s query: the
rank-1 row of every join-key partition of the `BETWEEN`-filtered source. -/
def snapshotRows (jks : List String) (etsCol : String) (ctsCol : Option String)
    (startDate endDate : Int) (S : List Row) : List Row :=
  (((snapshotFiltered etsCol startDate endDate S).map (snapshotKeyOf jks)).dedup).filterMap
    (fun k => snapshotPick etsCol ctsCol
      ((snapshotFiltered etsCol startDate endDate S).filter (fun r => snapshotKeyOf jks r == k)))

/-- The ordering used by the snapshot ranking: event timestamp, tie-broken by
created timestamp when that column is given. -/
def tsOrderLe (etsCol : String) (ctsCol : Option String) (a b : Row) : Prop :=
  match ctsCol with
  | some c => a etsCol < b etsCol ∨ (a etsCol = b etsCol ∧ a c ≤ b c)
  | none => a etsCol ≤ b etsCol

/-- The sentinel column the snapshot query appends when `join_key_columns` is
empty: `{repr(DUMMY_ENTITY_VAL)} AS {DUMMY_ENTITY_ID}`. -/
def dummyEntityColumn (jks : List String) : Option (String × String) :=
  if jks.isEmpty then some (DUMMY_ENTITY_ID, DUMMY_ENTITY_VAL) else none

/-- The SQL text built by `pull_latest_from_table_or_query` (whitespace
normalised): `partition_by_join_key_string`, `timestamp_desc_string`,
`field_string` and the dummy-entity literal are assembled exactly as in the
Python f-string. -/
def pullLatestQueryText (fromExpression : String) (jks fns : List String)
    (etsCol : String) (ctsCol : Option String) (startDate endDate : String) : String :=
  let partitionByJoinKeyString :=
    if String.intercalate ", " jks = "" then ""
    else "PARTITION BY " ++ String.intercalate ", " jks
  let timestampColumns := etsCol :: ctsCol.toList
  let timestampDescString := String.intercalate " DESC, " timestampColumns ++ " DESC"
  let fieldString := String.intercalate ", " (jks ++ fns ++ timestampColumns)
  let dummyField :=
    if jks.isEmpty then ", '" ++ DUMMY_ENTITY_VAL ++ "' AS " ++ DUMMY_ENTITY_ID else ""
  "SELECT " ++ fieldString ++ dummyField ++
    " FROM (SELECT " ++ fieldString ++
    ", ROW_NUMBER() OVER(" ++ partitionByJoinKeyString ++ " ORDER BY " ++ timestampDescString ++
    ") AS _feast_row FROM " ++ fromExpression ++
    " WHERE " ++ etsCol ++ " BETWEEN TIMESTAMP '" ++ startDate ++ "' AND TIMESTAMP '" ++
    endDate ++ "') WHERE _feast_row = 1"

/-- `feast_trino.trino_source.TrinoSource`, reduced to the one piece the
compiler reads: `get_table_query_string()`. -/
structure TrinoSourceObj where
  tableQueryString : String
  deriving DecidableEq

/-- The dynamic type of the `data_source` argument: a `TrinoSource` or some
other `DataSource` subclass, carrying its type name. -/
inductive DataSourceObj : Type
  | trino (src : TrinoSourceObj)
  | other (typeName : String)
  deriving DecidableEq

/-- The dynamic type of `config.offline_store`: a `TrinoOfflineStoreConfig`
(host, port, catalog, dataset) or some other config object. -/
inductive OfflineStoreConfigObj : Type
  | trino (host : String) (port : Nat) (catalog : String) (dataset : String)
  | other (typeName : String)
  deriving DecidableEq

/-- `isinstance(data_source, TrinoSource)`. -/
def isTrinoSource : DataSourceObj → Bool
  | .trino _ => true
  | .other _ => false

/-- `isinstance(config.offline_store, TrinoOfflineStoreConfig)`. -/
def isTrinoOfflineStoreConfig : OfflineStoreConfigObj → Bool
  | .trino _ _ _ _ => true
  | .other _ => false

/-- `TrinoRetrievalJob`: the compiled query text plus the two flags the
constructor receives (the execution client and repo config carry no
temporal-correctness content and are omitted). -/
structure TrinoRetrievalJob where
  queryText : String
  fullFeatureNames : Bool
  onDemandFeatureViews : Option (List String)
  deriving DecidableEq

/-- `TrinoOfflineStore.pull_latest_from_table_or_query`: the two `isinstance`
guards run first (modelled as `Except.error`, before any query text exists);
on success the job is built with `full_feature_names=False` and
`on_demand_feature_views=None`. -/
def pullLatestFromTableOrQuery (config : OfflineStoreConfigObj) (dataSource : DataSourceObj)
    (jks fns : List String) (etsCol : String) (ctsCol : Option String)
    (startDate endDate : String) : Except String TrinoRetrievalJob :=
  match dataSource with
  | .other t =>
    .error ("The data_source object is not a TrinoSource but is instead '" ++ t ++ "'")
  | .trino src =>
    match config with
    | .other t =>
      .error ("The config.offline_store object is not a TrinoOfflineStoreConfig but is instead '"
        ++ t ++ "'")
    | .trino _ _ _ _ =>
      .ok { queryText :=
              pullLatestQueryText src.tableQueryString jks fns etsCol ctsCol startDate endDate
            fullFeatureNames := false
            onDemandFeatureViews := none }

/-- The dynamic type of the `entity_df` argument of
`get_historical_features`. -/
inductive EntityDfObj : Type
  | queryString (sql : String)
  | dataFrame
  | other (typeName : String)
  deriving DecidableEq

/-- `type(entity_df)`'s printed name. -/
def entityDfTypeName : EntityDfObj → String
  | .queryString _ => "str"
  | .dataFrame => "DataFrame"
  | .other t => t

/-- `type(entity_df) is str`. -/
def isQueryStringDf : EntityDfObj → Bool
  | .queryString _ => true
  | _ => false

/-- `feast.errors.InvalidEntityType(type(entity_df))`: the raised error names
the offending type. -/
def invalidEntityTypeMsg (typeName : String) : String :=
  "InvalidEntityType: " ++ typeName

/-- `_upload_entity_df_and_get_entity_schema`: only a `str` reference query is
accepted — it is wrapped in `CREATE TABLE ... AS (...)` and probed with a
`LIMIT 1` query (the returned value models the executed statements; schema
inference itself is external I/O).  A DataFrame, or any other object, raises
`InvalidEntityType(type(entity_df))` with no conversion attempted. -/
def uploadEntityDfAndGetSchema (tableName : String) (entityDf : EntityDfObj) :
    Except String (List String) :=
  match entityDf with
  | .queryString sql =>
    .ok ["CREATE TABLE " ++ tableName ++ " AS (" ++ sql ++ ")",
         "SELECT * FROM " ++ tableName ++ " LIMIT 1"]
  | .dataFrame => .error (invalidEntityTypeMsg "DataFrame")
  | .other t => .error (invalidEntityTypeMsg t)

/-- `TrinoOfflineStore.get_historical_features`' control flow around the
entity upload: the config type guard, then the entity-df type check; the
point-in-time query itself is compiled by
`offline_utils.build_point_in_time_query` (external helper), represented here
by the `compiledQuery` argument, and the requested on-demand views by
`odfvs`. -/
def getHistoricalFeatures (config : OfflineStoreConfigObj) (entityDf : EntityDfObj)
    (tableReference compiledQuery : String) (fullFeatureNames : Bool)
    (odfvs : List String) : Except String TrinoRetrievalJob :=
  match config with
  | .other _ =>
    .error "This function should be used with a TrinoOfflineStoreConfig object. Instead we have config.offline_store being '\x7btype(config.offline_store)\x7d'"
  | .trino _ _ _ _ =>
    match uploadEntityDfAndGetSchema tableReference entityDf with
    | .error e => .error e
    | .ok _ =>
      .ok { queryText := compiledQuery
            fullFeatureNames := fullFeatureNames
            onDemandFeatureViews := some odfvs }

/-- `TrinoRetrievalJob.to_trino`: builds
`<catalog>.<dataset>.historical_<today>_<first 7 uuid chars>`, executes the
single statement `CREATE TABLE <destination> AS (<query>)` and returns the
destination name.  Result: (executed statements, returned name).  The
environment inputs — today's date string and the fresh uuid string — are
explicit arguments; `timeout` and `retryCadence` are accepted but never
read. -/
def toTrino (clientProject dataset today uuidString queryText : String)
    (timeout retryCadence : Nat) : List String × String :=
  let randId := uuidString.take 7
  let destinationTable :=
    clientProject ++ "." ++ dataset ++ ".historical_" ++ today ++ "_" ++ randId
  (["CREATE TABLE " ++ destinationTable ++ " AS (" ++ queryText ++ ")"], destinationTable)

/-- The entity-row unique id as the spec words it: the concatenation of the
view's join-key values cast to text and the entity timestamp cast to text,
with the dummy sentinel entity (whose join-key value is `DUMMY_ENTITY_VAL`)
substituted when the view has no entities. -/
def entityRowUniqueIdSpec (tsCol : String) (F : FeatureViewContext) (r : Row) : String :=
  if F.entities.isEmpty then DUMMY_ENTITY_VAL ++ toString (r tsCol)
  else String.join (F.entities.map (fun e => toString (r e))) ++ toString (r tsCol)

/-- The base-join condition as the spec words it for the empty-entities case:
the substituted sentinel join key participates as an equality on the constant
sentinel value. -/
def baseJoinCondSpec (F : FeatureViewContext) (s : SubRow) (e : EntityKeyRow) : Bool :=
  decide (s.eventTimestamp ≤ e.entityTimestamp) &&
  (F.ttl == 0 || decide (e.entityTimestamp - (F.ttl : Int) ≤ s.eventTimestamp)) &&
  (if F.entities.isEmpty then DUMMY_ENTITY_VAL == DUMMY_ENTITY_VAL else s.keyVals == e.keyVals)

/-- Request row used by the final-assembly counterexample: every column 0. -/
def exRow0 : Row := fun _ => 0

/-- Feature view used by the final-assembly counterexample: one join key, one
feature, no created-timestamp column, unbounded TTL. -/
def exView : FeatureViewContext :=
  { name := "fv", entities := ["k"], features := ["f"],
    eventTimestampColumn := "ets", createdTimestampColumn := none, ttl := 0 }

/-- Feature source row (`f = 1`, all other columns 0). -/
def exSrc1 : Row := fun c => if c = "f" then 1 else 0

/-- Feature source row (`f = 2`, all other columns 0): same join key and same
event timestamp as `exSrc1`. -/
def exSrc2 : Row := fun c => if c = "f" then 2 else 0

end FeastTrino

namespace FeastTrino

theorem aggMax_le {l : List Int} {x m : Int} (hx : x ∈ l) (hm : aggMax l = some m) : x ≤ m := by
  induction l generalizing m with
  | nil => cases hx
  | cons y ys ih =>
    rcases List.mem_cons.mp hx with rfl | hx'
    · cases h : aggMax ys with
      | none => simp [aggMax, h] at hm; omega
      | some m' => simp [aggMax, h] at hm; subst hm; exact le_max_left _ _
    · cases h : aggMax ys with
      | none =>
        cases ys with
        | nil => cases hx'
        | cons z zs => simp [aggMax] at h; cases h₂ : aggMax zs <;> simp [h₂] at h
      | some m' =>
        simp only [aggMax, h] at hm
        have := ih hx' h
        cases hm
        exact le_trans this (le_max_right _ _)

theorem aggMax_mem {l : List Int} {m : Int} (hm : aggMax l = some m) : m ∈ l := by
  induction l generalizing m with
  | nil => cases hm
  | cons y ys ih =>
    cases h : aggMax ys with
    | none => simp [aggMax, h] at hm; simp [hm]
    | some m' =>
      simp only [aggMax, h] at hm
      cases hm
      rcases max_choice y m' with h' | h'
      · simp [h']
      · rw [h']
        exact List.mem_cons_of_mem _ (ih h)

theorem aggMin_le {l : List Int} {x m : Int} (hx : x ∈ l) (hm : aggMin l = some m) : m ≤ x := by
  induction l generalizing m with
  | nil => cases hx
  | cons y ys ih =>
    rcases List.mem_cons.mp hx with rfl | hx'
    · cases h : aggMin ys with
      | none => simp [aggMin, h] at hm; omega
      | some m' => simp [aggMin, h] at hm; subst hm; exact min_le_left _ _
    · cases h : aggMin ys with
      | none =>
        cases ys with
        | nil => cases hx'
        | cons z zs => simp [aggMin] at h; cases h₂ : aggMin zs <;> simp [h₂] at h
      | some m' =>
        simp only [aggMin, h] at hm
        have := ih hx' h
        cases hm
        exact le_trans (min_le_right _ _) this

theorem aggMax_cons_eq_some (x : Int) (xs : List Int) : ∃ m, aggMax (x :: xs) = some m := by
  cases h : aggMax xs with
  | none => exact ⟨x, by simp [aggMax, h]⟩
  | some m' => exact ⟨max x m', by simp [aggMax, h]⟩

theorem aggMin_cons_eq_some (x : Int) (xs : List Int) : ∃ m, aggMin (x :: xs) = some m := by
  cases h : aggMin xs with
  | none => exact ⟨x, by simp [aggMin, h]⟩
  | some m' => exact ⟨min x m', by simp [aggMin, h]⟩

theorem aggMax_exists_of_ne_nil {l : List Int} (h : l ≠ []) : ∃ m, aggMax l = some m := by
  cases l with
  | nil => exact absurd rfl h
  | cons x xs => exact aggMax_cons_eq_some x xs

theorem aggMin_exists_of_ne_nil {l : List Int} (h : l ≠ []) : ∃ m, aggMin l = some m := by
  cases l with
  | nil => exact absurd rfl h
  | cons x xs => exact aggMin_cons_eq_some x xs

theorem mem_entityDF {tsCol : String} {F : FeatureViewContext} {E : List Row} {e : EntityKeyRow} :
    e ∈ entityDF tsCol F E ↔ ∃ r ∈ E, projEntity tsCol F r = e := by
  unfold entityDF
  rw [List.mem_dedup, List.mem_map]

/-- C2: before the join, a feature view's source rows are pre-filtered to the
event-timestamp window whose upper bound is the maximum entity timestamp over
all request rows and whose lower bound is the minimum entity timestamp over
all request rows minus `ttl` seconds; when `ttl = 0` the lower bound is
omitted entirely and only the upper bound applies. -/
theorem sourcePrefilterWindow (F : FeatureViewContext) (tsCol : String) (E S : List Row)
    (mx mn : Int)
    (hmx : aggMax (E.map (fun r => r tsCol)) = some mx)
    (hmn : aggMin (E.map (fun r => r tsCol)) = some mn) (s : Row) :
    s ∈ S.filter (prefilterCond F tsCol E) ↔
      s ∈ S ∧ s F.eventTimestampColumn ≤ mx ∧
        (F.ttl = 0 ∨ mn - (F.ttl : Int) ≤ s F.eventTimestampColumn) := by
  rw [List.mem_filter]
  unfold prefilterCond
  rw [hmx, hmn]
  simp [Bool.and_eq_true, Bool.or_eq_true, decide_eq_true_eq, Nat.beq_eq_true_eq]

/-- C1: the `{{featureview.name}}__base` join keeps a (feature row, request
row) pair exactly when the two rows agree on every join-key column of the
feature view, the feature row's event timestamp is at most the request row's
entity timestamp, and either `ttl = 0` (no lower staleness bound at all) or
the event timestamp is at least the entity timestamp minus `ttl` seconds. -/
theorem pointInTimeJoinKeepsPairIff (full : Bool) (F : FeatureViewContext) (tsCol : String)
    (E S : List Row) (s r : Row) (hs : s ∈ S) (hr : r ∈ E) :
    (projSub full F s, projEntity tsCol F r) ∈ basePairs full F tsCol E S ↔
      (F.entities.map s = F.entities.map r ∧
       s F.eventTimestampColumn ≤ r tsCol ∧
       (F.ttl = 0 ∨ r tsCol - (F.ttl : Int) ≤ s F.eventTimestampColumn)) := by
  unfold basePairs
  rw [List.mem_flatMap]
  constructor
  · rintro ⟨s', _hs', hmem⟩
    rw [List.mem_map] at hmem
    rcases hmem with ⟨e', he', heq⟩
    rw [List.mem_filter] at he'
    have hs'eq : s' = projSub full F s := congrArg Prod.fst heq
    have he'eq : e' = projEntity tsCol F r := congrArg Prod.snd heq
    subst hs'eq; subst he'eq
    have hcond := he'.2
    unfold baseJoinCond at hcond
    simp only [Bool.and_eq_true, Bool.or_eq_true, decide_eq_true_eq, beq_iff_eq,
      Nat.beq_eq_true_eq] at hcond
    exact ⟨hcond.2, hcond.1.1, hcond.1.2⟩
  · rintro ⟨hkeys, hts, httl⟩
    refine ⟨projSub full F s, ?_, ?_⟩
    · unfold subqueryRows
      rw [List.mem_map]
      refine ⟨s, ?_, rfl⟩
      rw [List.mem_filter]
      refine ⟨hs, ?_⟩
      unfold prefilterCond
      have hmem : r tsCol ∈ E.map (fun r => r tsCol) := List.mem_map.mpr ⟨r, hr, rfl⟩
      have hne : E.map (fun r => r tsCol) ≠ [] := by
        intro h; rw [h] at hmem; cases hmem
      rcases aggMax_exists_of_ne_nil hne with ⟨mx, hmx⟩
      rcases aggMin_exists_of_ne_nil hne with ⟨mn, hmn⟩
      rw [hmx, hmn]
      have hmx2 : s F.eventTimestampColumn ≤ mx :=
        le_trans hts (aggMax_le hmem hmx)
      simp only [Bool.and_eq_true, Bool.or_eq_true, decide_eq_true_eq, Nat.beq_eq_true_eq]
      refine ⟨hmx2, ?_⟩
      rcases httl with h0 | hl
      · exact Or.inl h0
      · exact Or.inr (le_trans (by have := aggMin_le hmem hmn; omega) hl)
    · rw [List.mem_map]
      refine ⟨projEntity tsCol F r, ?_, rfl⟩
      rw [List.mem_filter]
      refine ⟨mem_entityDF.mpr ⟨r, hr, rfl⟩, ?_⟩
      unfold baseJoinCond projSub projEntity
      simp only [Bool.and_eq_true, Bool.or_eq_true, decide_eq_true_eq, beq_iff_eq,
        Nat.beq_eq_true_eq]
      exact ⟨⟨hts, httl.imp id id⟩, hkeys⟩

theorem pickBest_eq_none {α κ : Type} [LinearOrder κ] {key : α → κ} {l : List α} :
    pickBest key l = none ↔ l = [] := by
  cases l with
  | nil => simp [pickBest]
  | cons b rest => simp [pickBest]

theorem pickBest_mem {α κ : Type} [LinearOrder κ] {key : α → κ} {l : List α} {m : α}
    (hm : pickBest key l = some m) : m ∈ l := by
  induction l generalizing m with
  | nil => cases hm
  | cons b rest ih =>
    simp only [pickBest] at hm
    cases h : pickBest key rest with
    | none =>
      rw [h] at hm
      simp only [Option.elim_none, Option.some.injEq] at hm
      subst hm
      exact List.mem_cons_self _ _
    | some a =>
      rw [h] at hm
      simp only [Option.elim_some, Option.some.injEq] at hm
      by_cases hlt : key b < key a
      · rw [if_pos hlt] at hm
        subst hm
        exact List.mem_cons_of_mem _ (ih h)
      · rw [if_neg hlt] at hm
        subst hm
        exact List.mem_cons_self _ _

theorem pickBest_le {α κ : Type} [LinearOrder κ] {key : α → κ} {l : List α} {m : α}
    (hm : pickBest key l = some m) : ∀ x ∈ l, key x ≤ key m := by
  induction l generalizing m with
  | nil => intro x hx; cases hx
  | cons b rest ih =>
    intro x hx
    simp only [pickBest] at hm
    cases h : pickBest key rest with
    | none =>
      rw [h] at hm
      simp only [Option.elim_none, Option.some.injEq] at hm
      subst hm
      have hrest : rest = [] := pickBest_eq_none.mp h
      subst hrest
      rcases List.mem_cons.mp hx with rfl | hx'
      · exact le_refl _
      · cases hx'
    | some a =>
      rw [h] at hm
      simp only [Option.elim_some, Option.some.injEq] at hm
      by_cases hlt : key b < key a
      · rw [if_pos hlt] at hm
        subst hm
        rcases List.mem_cons.mp hx with rfl | hx'
        · exact le_of_lt hlt
        · exact ih h x hx'
      · rw [if_neg hlt] at hm
        subst hm
        rcases List.mem_cons.mp hx with rfl | hx'
        · exact le_refl _
        · exact le_trans (ih h x hx') (not_lt.mp hlt)

theorem pickBest_exists {α κ : Type} [LinearOrder κ] (key : α → κ) {l : List α}
    (h : l ≠ []) : ∃ m, pickBest key l = some m := by
  cases hp : pickBest key l with
  | none => exact absurd (pickBest_eq_none.mp hp) h
  | some m => exact ⟨m, rfl⟩

theorem mem_dedupJoin {B : List BaseRow} {b : BaseRow} :
    b ∈ dedupJoin B ↔
      b ∈ B ∧ ∀ b' ∈ B, b'.uid = b.uid → etsVal b' = etsVal b → ctsVal b' ≤ ctsVal b := by
  unfold dedupJoin
  rw [List.mem_filter]
  constructor
  · rintro ⟨hb, hcond⟩
    rw [beq_iff_eq] at hcond
    refine ⟨hb, fun b' hb' huid hets => ?_⟩
    unfold maxCtsFor at hcond
    exact aggMax_le
      (List.mem_map.mpr ⟨b', List.mem_filter.mpr ⟨hb', by simp [huid, hets]⟩, rfl⟩) hcond
  · rintro ⟨hb, hmax⟩
    refine ⟨hb, ?_⟩
    rw [beq_iff_eq]
    have hbmem : ctsVal b ∈
        (B.filter (fun x => x.uid == b.uid && etsVal x == etsVal b)).map ctsVal :=
      List.mem_map.mpr ⟨b, List.mem_filter.mpr ⟨hb, by simp⟩, rfl⟩
    have hne : (B.filter (fun x => x.uid == b.uid && etsVal x == etsVal b)).map ctsVal ≠ [] := by
      intro h; rw [h] at hbmem; cases hbmem
    rcases aggMax_exists_of_ne_nil hne with ⟨m, hm⟩
    have hub : m ≤ ctsVal b := by
      rcases List.mem_map.mp (aggMax_mem hm) with ⟨b', hb', rfl⟩
      rw [List.mem_filter] at hb'
      simp only [Bool.and_eq_true, beq_iff_eq] at hb'
      exact hmax b' hb'.1 hb'.2.1 hb'.2.2
    have hlb : ctsVal b ≤ m := aggMax_le hbmem hm
    unfold maxCtsFor
    rw [hm]
    exact congrArg some (le_antisymm hub hlb)

theorem mem_latestKeyed {κ : Type} [LinearOrder κ] (key : BaseRow → κ) {D : List BaseRow}
    {l : BaseRow}
    (hl : l ∈ (uidsOf D).filterMap (fun u => pickBest key (partitionOf D u))) :
    l ∈ D ∧ ∀ d ∈ D, d.uid = l.uid → key d ≤ key l := by
  rw [List.mem_filterMap] at hl
  rcases hl with ⟨u, _hu, hpick⟩
  have hmem := pickBest_mem hpick
  have hle := pickBest_le hpick
  unfold partitionOf at hmem
  rw [List.mem_filter] at hmem
  obtain ⟨hlD, huidb⟩ := hmem
  have huid : l.uid = u := beq_iff_eq.mp huidb
  refine ⟨hlD, fun d hd hduid => ?_⟩
  refine hle d ?_
  unfold partitionOf
  rw [List.mem_filter]
  exact ⟨hd, beq_iff_eq.mpr (by rw [hduid, huid])⟩

theorem latestKeyed_exists {κ : Type} [LinearOrder κ] (key : BaseRow → κ) {D : List BaseRow}
    {d : BaseRow} (hd : d ∈ D) :
    ∃ l ∈ (uidsOf D).filterMap (fun u => pickBest key (partitionOf D u)),
      l.uid = d.uid ∧ key d ≤ key l := by
  have hdp : d ∈ partitionOf D d.uid := by
    unfold partitionOf
    rw [List.mem_filter]
    exact ⟨hd, beq_iff_eq.mpr rfl⟩
  have hne : partitionOf D d.uid ≠ [] := by
    intro h; rw [h] at hdp; cases hdp
  rcases pickBest_exists key hne with ⟨m, hm⟩
  refine ⟨m, ?_, ?_, pickBest_le hm d hdp⟩
  · rw [List.mem_filterMap]
    refine ⟨d.uid, ?_, hm⟩
    unfold uidsOf
    rw [List.mem_dedup]
    exact List.mem_map.mpr ⟨d, hd, rfl⟩
  · have := pickBest_mem hm
    unfold partitionOf at this
    rw [List.mem_filter] at this
    exact beq_iff_eq.mp this.2

theorem dedupJoin_cover {B : List BaseRow} {b' : BaseRow} (hb' : b' ∈ B) :
    ∃ m ∈ dedupJoin B, m.uid = b'.uid ∧ etsVal m = etsVal b' ∧ ctsVal b' ≤ ctsVal m := by
  have hbmem : ctsVal b' ∈
      (B.filter (fun x => x.uid == b'.uid && etsVal x == etsVal b')).map ctsVal :=
    List.mem_map.mpr ⟨b', List.mem_filter.mpr ⟨hb', by simp⟩, rfl⟩
  have hne : (B.filter (fun x => x.uid == b'.uid && etsVal x == etsVal b')).map ctsVal ≠ [] := by
    intro h; rw [h] at hbmem; cases hbmem
  rcases aggMax_exists_of_ne_nil hne with ⟨mv, hmv⟩
  rcases List.mem_map.mp (aggMax_mem hmv) with ⟨m, hmcls, hmct⟩
  rw [List.mem_filter] at hmcls
  simp only [Bool.and_eq_true, beq_iff_eq] at hmcls
  obtain ⟨hmB, hmuid, hmets⟩ := hmcls
  refine ⟨m, ?_, hmuid, hmets, ?_⟩
  · rw [mem_dedupJoin]
    refine ⟨hmB, fun x hx hxuid hxets => ?_⟩
    have hxcls : ctsVal x ∈
        (B.filter (fun y => y.uid == b'.uid && etsVal y == etsVal b')).map ctsVal :=
      List.mem_map.mpr ⟨x, List.mem_filter.mpr
        ⟨hx, by simp [hxuid, hmuid, hxets, hmets]⟩, rfl⟩
    rw [hmct]
    exact aggMax_le hxcls hmv
  · rw [hmct]
    exact aggMax_le hbmem hmv

/-- C3: when the feature view declares a created-timestamp column, the
dedup-then-rank-then-rejoin chain of CTEs (`__dedup`, `__latest`, `__cleaned`)
keeps exactly the base rows whose `(event_timestamp, created_timestamp)` pair
is lexicographically maximal within their entity-row unique id group — i.e.
collapsing each `(unique_id, event_timestamp)` group to its maximum created
timestamp, ranking by event timestamp descending then created timestamp
descending, keeping rank 1 and re-joining on `(unique_id, event_timestamp,
created_timestamp)` recovers the full projected rows of the latest snapshot;
without a created-timestamp column the ranking is by event timestamp
descending only and the re-join key omits the created timestamp, keeping
exactly the rows with the maximal event timestamp of their group. -/
theorem latestRankingCharacterization (B : List BaseRow) (b : BaseRow) :
    (b ∈ cleanedWithCreated B ↔ b ∈ B ∧ ∀ b' ∈ B, b'.uid = b.uid →
        (etsVal b' < etsVal b ∨ (etsVal b' = etsVal b ∧ ctsVal b' ≤ ctsVal b))) ∧
    (b ∈ cleanedNoCreated B ↔ b ∈ B ∧ ∀ b' ∈ B, b'.uid = b.uid →
        etsVal b' ≤ etsVal b) := by
  constructor
  · unfold cleanedWithCreated
    rw [List.mem_filter]
    constructor
    · rintro ⟨hb, hany⟩
      rw [List.any_eq_true] at hany
      rcases hany with ⟨l, hl, hkeys⟩
      simp only [Bool.and_eq_true, beq_iff_eq] at hkeys
      obtain ⟨⟨hluid, hlets⟩, hlcts⟩ := hkeys
      have hlmax := mem_latestKeyed (fun x => toLex (etsVal x, ctsVal x)) hl
      refine ⟨hb, fun b' hb' huid => ?_⟩
      rcases dedupJoin_cover hb' with ⟨m, hmD, hmuid, hmets, hmcts⟩
      have h1 : toLex (etsVal b', ctsVal b') ≤ toLex (etsVal m, ctsVal m) := by
        rw [Prod.Lex.le_iff]
        exact Or.inr ⟨hmets.symm, hmcts⟩
      have h2 : toLex (etsVal m, ctsVal m) ≤ toLex (etsVal l, ctsVal l) :=
        hlmax.2 m hmD (by rw [hmuid, huid, hluid])
      have h3 := le_trans h1 h2
      rw [Prod.Lex.le_iff] at h3
      simpa [hlets, hlcts] using h3
    · rintro ⟨hb, hmax⟩
      refine ⟨hb, ?_⟩
      rw [List.any_eq_true]
      have hbD : b ∈ dedupJoin B := by
        rw [mem_dedupJoin]
        refine ⟨hb, fun b' hb' huid hets => ?_⟩
        rcases hmax b' hb' huid with hlt | ⟨_, hle⟩
        · rw [hets] at hlt; exact absurd hlt (lt_irrefl _)
        · exact hle
      rcases latestKeyed_exists (fun x => toLex (etsVal x, ctsVal x)) hbD
        with ⟨l, hl, hluid, hble⟩
      have hlB : l ∈ B := (mem_dedupJoin.mp (mem_latestKeyed (fun x => toLex (etsVal x, ctsVal x)) hl).1).1
      have hlle : toLex (etsVal l, ctsVal l) ≤ toLex (etsVal b, ctsVal b) := by
        rw [Prod.Lex.le_iff]
        rcases hmax l hlB hluid with hlt | heq
        · exact Or.inl hlt
        · exact Or.inr heq
      have heq : toLex (etsVal l, ctsVal l) = toLex (etsVal b, ctsVal b) :=
        le_antisymm hlle hble
      have heq' : (etsVal l, ctsVal l) = (etsVal b, ctsVal b) := toLex.injective heq
      refine ⟨l, hl, ?_⟩
      simp only [Bool.and_eq_true, beq_iff_eq]
      exact ⟨⟨hluid, congrArg Prod.fst heq'⟩, congrArg Prod.snd heq'⟩
  · unfold cleanedNoCreated
    rw [List.mem_filter]
    constructor
    · rintro ⟨hb, hany⟩
      rw [List.any_eq_true] at hany
      rcases hany with ⟨l, hl, hkeys⟩
      simp only [Bool.and_eq_true, beq_iff_eq] at hkeys
      obtain ⟨hluid, hlets⟩ := hkeys
      have hlmax := mem_latestKeyed etsVal hl
      refine ⟨hb, fun b' hb' huid => ?_⟩
      have := hlmax.2 b' hb' (by rw [huid, hluid])
      rw [hlets] at this
      exact this
    · rintro ⟨hb, hmax⟩
      refine ⟨hb, ?_⟩
      rw [List.any_eq_true]
      rcases latestKeyed_exists etsVal hb with ⟨l, hl, hluid, hble⟩
      have hlB : l ∈ B := (mem_latestKeyed etsVal hl).1
      have hlle : etsVal l ≤ etsVal b := hmax l hlB hluid
      refine ⟨l, hl, ?_⟩
      simp only [Bool.and_eq_true, beq_iff_eq]
      exact ⟨hluid, le_antisymm hlle hble⟩

theorem flatMap_singleton_eq_map {α β : Type} (f : α → β) (l : List α) :
    (l.flatMap fun a => [f a]) = l.map f := by
  induction l with
  | nil => rfl
  | cons x xs ih =>
    simp only [List.flatMap_cons, List.singleton_append, List.map_cons]
    rw [ih]

theorem leftOptions_of_length_le_one {l : List BaseRow} (h : l.length ≤ 1) :
    leftOptions l = [l.head?] := by
  cases l with
  | nil => rfl
  | cons x rest =>
    cases rest with
    | nil => rfl
    | cons y rest' => simp at h

theorem optionCombos_of_unique (full : Bool) (tsCol : String) (E : List Row) (r : Row)
    (views : List (FeatureViewContext × List Row))
    (h : ∀ vS ∈ views, (matchesFor full tsCol E vS r).length ≤ 1) :
    optionCombos full tsCol E r views =
      [views.map (fun vS => (matchesFor full tsCol E vS r).head?)] := by
  induction views with
  | nil => rfl
  | cons vS rest ih =>
    have h1 : (matchesFor full tsCol E vS r).length ≤ 1 :=
      h vS (List.mem_cons_self _ _)
    have h2 : ∀ v ∈ rest, (matchesFor full tsCol E v r).length ≤ 1 :=
      fun v hv => h v (List.mem_cons_of_mem _ hv)
    simp only [optionCombos, leftOptions_of_length_le_one h1, ih h2, List.map_cons]
    rfl

/-- C4 (amended): under the proviso that each feature view's `__cleaned`
result carries at most one row per entity-row unique id, the final
`LEFT JOIN` assembly returns exactly one row per entity-request row — the
request rows are taken as-is from `entity_dataframe`, which is not
deduplicated — and a request row that matches no feature row in some view
still appears, with that view's slot `none` (its feature columns NULL):
`(matchesFor ...).head?` is `none` exactly on empty match lists. -/
theorem finalLeftJoinPerRequestRow (full : Bool)
    (views : List (FeatureViewContext × List Row)) (tsCol : String) (E : List Row)
    (h : ∀ vS ∈ views, ∀ r ∈ E, (matchesFor full tsCol E vS r).length ≤ 1) :
    finalRows full views tsCol E =
      E.map (fun r =>
        { entity := r
          viewCols := views.map (fun vS => (matchesFor full tsCol E vS r).head?) }) ∧
    (finalRows full views tsCol E).length = E.length ∧
    ∀ r ∈ E,
      ({ entity := r
         viewCols := views.map (fun vS => (matchesFor full tsCol E vS r).head?) } : FinalRow) ∈
        finalRows full views tsCol E := by
  have hmain : finalRows full views tsCol E =
      E.map (fun r =>
        { entity := r
          viewCols := views.map (fun vS => (matchesFor full tsCol E vS r).head?) }) := by
    unfold finalRows
    have : ∀ r ∈ E,
        (optionCombos full tsCol E r views).map
            (fun cs => ({ entity := r, viewCols := cs } : FinalRow)) =
          [{ entity := r
             viewCols := views.map (fun vS => (matchesFor full tsCol E vS r).head?) }] := by
      intro r hr
      rw [optionCombos_of_unique full tsCol E r views (fun vS hv => h vS hv r hr)]
      rfl
    rw [List.flatMap_congr this]
    exact flatMap_singleton_eq_map _ E
  refine ⟨hmain, ?_, ?_⟩
  · rw [hmain, List.length_map]
  · intro r hr
    rw [hmain]
    exact List.mem_map.mpr ⟨r, hr, rfl⟩

/-- C4 (counterexample): the final assembly does not return exactly one row
per deduplicated entity-request row.  With the request table `[exRow0,
exRow0]` (one distinct row, duplicated) and one feature view with no matching
source rows, 2 rows come back although the deduplicated request-row count is
1; and with a single request row but two feature rows tied on join key and
event timestamp, 2 rows come back as well (rank-1 tie fan-out). -/
theorem finalJoinRowCountCounterexample :
    (finalRows false [(exView, [])] "ts" [exRow0, exRow0]).length = 2 ∧
    ([exRow0, exRow0].map (projEntity "ts" exView)).dedup.length = 1 ∧
    (finalRows false [(exView, [exSrc1, exSrc2])] "ts" [exRow0]).length = 2 := by
  decide

theorem finalLeftJoinPerRequestRowWitness :
    (∀ vS ∈ [(exView, ([] : List Row))], ∀ r ∈ [exRow0],
        (matchesFor false "ts" [exRow0] vS r).length ≤ 1) ∧
    (finalRows false [(exView, [])] "ts" [exRow0]).length = [exRow0].length := by
  have h : ∀ vS ∈ [(exView, ([] : List Row))], ∀ r ∈ [exRow0],
      (matchesFor false "ts" [exRow0] vS r).length ≤ 1 := by decide
  exact ⟨h, (finalLeftJoinPerRequestRow false [(exView, [])] "ts" [exRow0] h).2.1⟩

theorem projSub_rename (F : FeatureViewContext) (s : Row) :
    projSub true F s = renameSub F (projSub false F s) := by
  unfold projSub renameSub featureAlias
  simp [List.map_map, Function.comp]

theorem subqueryRows_rename (F : FeatureViewContext) (tsCol : String) (E S : List Row) :
    subqueryRows true F tsCol E S = (subqueryRows false F tsCol E S).map (renameSub F) := by
  unfold subqueryRows
  rw [List.map_map]
  exact List.map_congr_left (fun s _ => projSub_rename F s)

theorem baseJoinCond_rename (F : FeatureViewContext) (s : SubRow) (e : EntityKeyRow) :
    baseJoinCond F (renameSub F s) e = baseJoinCond F s e := rfl

theorem basePairs_rename (F : FeatureViewContext) (tsCol : String) (E S : List Row) :
    basePairs true F tsCol E S =
      (basePairs false F tsCol E S).map (fun p => (renameSub F p.1, p.2)) := by
  unfold basePairs
  rw [subqueryRows_rename, List.flatMap_map, List.map_flatMap]
  apply List.flatMap_congr
  intro s _
  rw [List.map_map]
  rfl

theorem baseRows_rename (F : FeatureViewContext) (tsCol : String) (E S : List Row) :
    baseRows true F tsCol E S = (baseRows false F tsCol E S).map (renameBase F) := by
  unfold baseRows
  rw [basePairs_rename, List.map_map, List.map_map]
  rfl

theorem maxCtsFor_rename (F : FeatureViewContext) (B : List BaseRow) (u : String) (t : Int) :
    maxCtsFor (B.map (renameBase F)) u t = maxCtsFor B u t := by
  unfold maxCtsFor
  rw [List.filter_map, List.map_map]
  rfl

theorem dedupJoin_rename (F : FeatureViewContext) (B : List BaseRow) :
    dedupJoin (B.map (renameBase F)) = (dedupJoin B).map (renameBase F) := by
  unfold dedupJoin
  rw [List.filter_map]
  apply congrArg
  apply List.filter_congr
  intro b _
  show (maxCtsFor (B.map (renameBase F)) b.uid (etsVal b) == some (ctsVal b)) = _
  rw [maxCtsFor_rename]

theorem uidsOf_rename (F : FeatureViewContext) (B : List BaseRow) :
    uidsOf (B.map (renameBase F)) = uidsOf B := by
  unfold uidsOf
  rw [List.map_map]
  rfl

theorem partitionOf_rename (F : FeatureViewContext) (B : List BaseRow) (u : String) :
    partitionOf (B.map (renameBase F)) u = (partitionOf B u).map (renameBase F) := by
  unfold partitionOf
  rw [List.filter_map]
  rfl

theorem pickBest_map {α β κ : Type} [LinearOrder κ] (g : α → β) (key : β → κ) (l : List α) :
    pickBest key (l.map g) = (pickBest (fun a => key (g a)) l).map g := by
  induction l with
  | nil => rfl
  | cons b rest ih =>
    simp only [List.map_cons, pickBest, ih]
    cases h : pickBest (fun a => key (g a)) rest with
    | none => rfl
    | some a =>
      simp only [Option.map_some', Option.elim_some]
      rw [apply_ite g]

theorem latestWithCreated_rename (F : FeatureViewContext) (B : List BaseRow) :
    latestWithCreated (B.map (renameBase F)) = (latestWithCreated B).map (renameBase F) := by
  unfold latestWithCreated
  rw [uidsOf_rename, List.map_filterMap]
  apply List.filterMap_congr
  intro u _
  rw [partitionOf_rename, pickBest_map]
  rfl

theorem latestNoCreated_rename (F : FeatureViewContext) (B : List BaseRow) :
    latestNoCreated (B.map (renameBase F)) = (latestNoCreated B).map (renameBase F) := by
  unfold latestNoCreated
  rw [uidsOf_rename, List.map_filterMap]
  apply List.filterMap_congr
  intro u _
  rw [partitionOf_rename, pickBest_map]
  rfl

theorem cleanedWithCreated_rename (F : FeatureViewContext) (B : List BaseRow) :
    cleanedWithCreated (B.map (renameBase F)) = (cleanedWithCreated B).map (renameBase F) := by
  unfold cleanedWithCreated
  rw [dedupJoin_rename, latestWithCreated_rename, List.filter_map]
  apply congrArg
  apply List.filter_congr
  intro b _
  simp only [Function.comp_apply]
  rw [List.any_map]
  rfl

theorem cleanedNoCreated_rename (F : FeatureViewContext) (B : List BaseRow) :
    cleanedNoCreated (B.map (renameBase F)) = (cleanedNoCreated B).map (renameBase F) := by
  unfold cleanedNoCreated
  rw [latestNoCreated_rename, List.filter_map]
  apply congrArg
  apply List.filter_congr
  intro b _
  simp only [Function.comp_apply]
  rw [List.any_map]
  rfl

theorem cleanedFor_rename (F : FeatureViewContext) (tsCol : String) (E S : List Row) :
    cleanedFor true F tsCol E S = (cleanedFor false F tsCol E S).map (renameBase F) := by
  unfold cleanedFor
  cases F.createdTimestampColumn with
  | none => rw [baseRows_rename, cleanedNoCreated_rename]
  | some c => rw [baseRows_rename, cleanedWithCreated_rename]

theorem matchesFor_rename (tsCol : String) (E : List Row)
    (vS : FeatureViewContext × List Row) (r : Row) :
    matchesFor true tsCol E vS r = (matchesFor false tsCol E vS r).map (renameBase vS.1) := by
  unfold matchesFor
  rw [cleanedFor_rename, List.filter_map]
  rfl

theorem leftOptions_map (g : BaseRow → BaseRow) (l : List BaseRow) :
    leftOptions (l.map g) = (leftOptions l).map (Option.map g) := by
  unfold leftOptions
  cases l with
  | nil => rfl
  | cons x rest => simp [List.map_map]

theorem optionCombos_rename (tsCol : String) (E : List Row) (r : Row) :
    ∀ views : List (FeatureViewContext × List Row),
      optionCombos true tsCol E r views =
        (optionCombos false tsCol E r views).map
          (fun cs => List.zipWith (fun vS c => c.map (renameBase vS.1)) views cs)
  | [] => by simp [optionCombos]
  | vS :: rest => by
    simp only [optionCombos]
    rw [matchesFor_rename, leftOptions_map, optionCombos_rename tsCol E r rest,
      List.flatMap_map, List.map_flatMap]
    apply List.flatMap_congr
    intro o _
    rw [List.map_map, List.map_map]
    rfl

/-- C6: toggling `full_feature_names` only renames output feature columns —
compiling with qualified names yields, request row for request row and view
slot for view slot, exactly the unqualified result with every feature column
`f` of view `F` renamed to `F__f` (`renameFinal`); which rows are selected by
the pre-filter, the point-in-time join, the dedup/ranking and the final
`LEFT JOIN`, and every cell value, are unchanged. -/
theorem fullFeatureNamesOnlyRenames (views : List (FeatureViewContext × List Row))
    (tsCol : String) (E : List Row) :
    finalRows true views tsCol E = (finalRows false views tsCol E).map (renameFinal views) := by
  unfold finalRows
  rw [List.map_flatMap]
  apply List.flatMap_congr
  intro r _
  rw [optionCombos_rename tsCol E r views, List.map_map, List.map_map]
  rfl

theorem mem_snapshotFiltered {etsCol : String} {startDate endDate : Int} {S : List Row}
    {r : Row} :
    r ∈ snapshotFiltered etsCol startDate endDate S ↔
      r ∈ S ∧ startDate ≤ r etsCol ∧ r etsCol ≤ endDate := by
  unfold snapshotFiltered
  rw [List.mem_filter]
  simp [Bool.and_eq_true, decide_eq_true_eq, and_assoc]

theorem snapshotPick_exists (etsCol : String) (ctsCol : Option String) {l : List Row}
    (h : l ≠ []) : ∃ r, snapshotPick etsCol ctsCol l = some r := by
  unfold snapshotPick
  cases ctsCol with
  | none => exact pickBest_exists _ h
  | some c => exact pickBest_exists _ h

theorem snapshotPick_mem {etsCol : String} {ctsCol : Option String} {l : List Row} {r : Row}
    (h : snapshotPick etsCol ctsCol l = some r) : r ∈ l := by
  unfold snapshotPick at h
  cases ctsCol with
  | none => exact pickBest_mem h
  | some c => exact pickBest_mem h

theorem snapshotPick_le {etsCol : String} {ctsCol : Option String} {l : List Row} {r : Row}
    (h : snapshotPick etsCol ctsCol l = some r) :
    ∀ x ∈ l, tsOrderLe etsCol ctsCol x r := by
  unfold snapshotPick at h
  intro x hx
  unfold tsOrderLe
  cases ctsCol with
  | none => exact pickBest_le h x hx
  | some c =>
    have := pickBest_le h x hx
    rw [Prod.Lex.le_iff] at this
    exact this

theorem filterMap_map_proj {α β : Type} {f : β → Option α} {proj : α → β} :
    ∀ keys : List β, (∀ k ∈ keys, ∃ r, f k = some r ∧ proj r = k) →
      (keys.filterMap f).map proj = keys
  | [], _ => rfl
  | k :: ks, h => by
    rcases h k (List.mem_cons_self _ _) with ⟨r, hr, hproj⟩
    have ih := filterMap_map_proj ks (fun k' hk' => h k' (List.mem_cons_of_mem _ hk'))
    simp only [List.filterMap_cons, hr, List.map_cons, ih, hproj]

/-- C5: the snapshot compiler's query restricts source rows to event
timestamps inside the closed interval `[start, end]` (SQL `BETWEEN`); the key
projection of its result equals the (duplicate-free) list of distinct
join-key combinations present in the filtered rows — exactly one output row
per join-key group; each output row is one of the filtered source rows and is
maximal in its group under event timestamp ordered descending, tie-broken by
created timestamp descending when a created-timestamp column is given; and
when the join-key list is empty the query additionally emits the literal
sentinel dummy-entity column. -/
theorem snapshotLatestPerGroup (jks : List String) (etsCol : String) (ctsCol : Option String)
    (startDate endDate : Int) (S : List Row) :
    (∀ r, r ∈ snapshotFiltered etsCol startDate endDate S ↔
        r ∈ S ∧ startDate ≤ r etsCol ∧ r etsCol ≤ endDate) ∧
    ((snapshotRows jks etsCol ctsCol startDate endDate S).map (snapshotKeyOf jks) =
      ((snapshotFiltered etsCol startDate endDate S).map (snapshotKeyOf jks)).dedup) ∧
    (∀ r ∈ snapshotRows jks etsCol ctsCol startDate endDate S,
        r ∈ snapshotFiltered etsCol startDate endDate S ∧
        ∀ r' ∈ snapshotFiltered etsCol startDate endDate S,
          snapshotKeyOf jks r' = snapshotKeyOf jks r → tsOrderLe etsCol ctsCol r' r) ∧
    (jks = [] → dummyEntityColumn jks = some (DUMMY_ENTITY_ID, DUMMY_ENTITY_VAL)) := by
  refine ⟨fun r => mem_snapshotFiltered, ?_, ?_, ?_⟩
  · unfold snapshotRows
    apply filterMap_map_proj
    intro k hk
    rw [List.mem_dedup, List.mem_map] at hk
    rcases hk with ⟨w, hw, hwk⟩
    have hwp : w ∈ (snapshotFiltered etsCol startDate endDate S).filter
        (fun r => snapshotKeyOf jks r == k) :=
      List.mem_filter.mpr ⟨hw, beq_iff_eq.mpr hwk⟩
    have hne : (snapshotFiltered etsCol startDate endDate S).filter
        (fun r => snapshotKeyOf jks r == k) ≠ [] := by
      intro hnil; rw [hnil] at hwp; cases hwp
    rcases snapshotPick_exists etsCol ctsCol hne with ⟨r, hr⟩
    refine ⟨r, hr, ?_⟩
    have := snapshotPick_mem hr
    rw [List.mem_filter] at this
    exact beq_iff_eq.mp this.2
  · intro r hr
    unfold snapshotRows at hr
    rw [List.mem_filterMap] at hr
    rcases hr with ⟨k, _hk, hpick⟩
    have hrp := snapshotPick_mem hpick
    rw [List.mem_filter] at hrp
    obtain ⟨hrf, hrk⟩ := hrp
    refine ⟨hrf, fun r' hr' hkey => ?_⟩
    refine snapshotPick_le hpick r' (List.mem_filter.mpr ⟨hr', ?_⟩)
    rw [hkey]
    exact hrk
  · intro h
    subst h
    rfl

/-- C7: `to_trino` executes exactly one statement — `CREATE TABLE
<catalog>.<dataset>.historical_<today>_<7-char uuid prefix> AS (<compiled
query>)` — wrapping the job's compiled query verbatim, and returns that fully
qualified destination name; the `timeout` and `retry_cadence` arguments have
no effect on the statement, the number of executions, or the returned
name. -/
theorem toTrinoSingleCreateTableExecution
    (clientProject dataset today uuidString queryText : String) (t1 r1 t2 r2 : Nat) :
    (toTrino clientProject dataset today uuidString queryText t1 r1).1 =
      ["CREATE TABLE " ++
        (clientProject ++ "." ++ dataset ++ ".historical_" ++ today ++ "_" ++
          uuidString.take 7) ++ " AS (" ++ queryText ++ ")"] ∧
    (toTrino clientProject dataset today uuidString queryText t1 r1).2 =
      clientProject ++ "." ++ dataset ++ ".historical_" ++ today ++ "_" ++ uuidString.take 7 ∧
    (toTrino clientProject dataset today uuidString queryText t1 r1).1.length = 1 ∧
    toTrino clientProject dataset today uuidString queryText t1 r1 =
      toTrino clientProject dataset today uuidString queryText t2 r2 :=
  ⟨rfl, rfl, rfl, rfl⟩

/-- C8: `pull_latest_from_table_or_query` errors exactly when the data source
is not a `TrinoSource` or the offline-store config is not a
`TrinoOfflineStoreConfig` (the guards run before any query text is built);
and, with a valid config, `get_historical_features` succeeds exactly when the
entity table is a reference query string, otherwise failing with the
invalid-entity-type error naming the offending type — in particular for an
in-memory DataFrame — with no fallback conversion. -/
theorem sourceAndEntityTypeErrors (config config2 : OfflineStoreConfigObj)
    (dataSource : DataSourceObj) (jks fns : List String) (etsCol : String)
    (ctsCol : Option String) (startDate endDate : String) (entityDf : EntityDfObj)
    (tableReference compiledQuery : String) (fullNames : Bool) (odfvs : List String)
    (hcfg : isTrinoOfflineStoreConfig config2 = true) :
    ((pullLatestFromTableOrQuery config dataSource jks fns etsCol ctsCol
        startDate endDate).isOk = true ↔
      (isTrinoSource dataSource = true ∧ isTrinoOfflineStoreConfig config = true)) ∧
    ((getHistoricalFeatures config2 entityDf tableReference compiledQuery fullNames
        odfvs).isOk = true ↔ isQueryStringDf entityDf = true) ∧
    (isQueryStringDf entityDf = false →
      getHistoricalFeatures config2 entityDf tableReference compiledQuery fullNames odfvs =
        Except.error (invalidEntityTypeMsg (entityDfTypeName entityDf))) := by
  refine ⟨?_, ?_, ?_⟩
  · cases dataSource with
    | other t =>
      simp [pullLatestFromTableOrQuery, isTrinoSource, Except.isOk, Except.toBool]
    | trino src =>
      cases config with
      | other t =>
        simp [pullLatestFromTableOrQuery, isTrinoSource, isTrinoOfflineStoreConfig,
          Except.isOk, Except.toBool]
      | trino h p c d =>
        simp [pullLatestFromTableOrQuery, isTrinoSource, isTrinoOfflineStoreConfig,
          Except.isOk, Except.toBool]
  · cases config2 with
    | other t => simp [isTrinoOfflineStoreConfig] at hcfg
    | trino h p c d =>
      cases entityDf with
      | queryString sql =>
        simp [getHistoricalFeatures, uploadEntityDfAndGetSchema, isQueryStringDf,
          Except.isOk, Except.toBool]
      | dataFrame =>
        simp [getHistoricalFeatures, uploadEntityDfAndGetSchema, isQueryStringDf,
          Except.isOk, Except.toBool]
      | other t =>
        simp [getHistoricalFeatures, uploadEntityDfAndGetSchema, isQueryStringDf,
          Except.isOk, Except.toBool]
  · intro hq
    cases config2 with
    | other t => simp [isTrinoOfflineStoreConfig] at hcfg
    | trino h p c d =>
      cases entityDf with
      | queryString sql => simp [isQueryStringDf] at hq
      | dataFrame =>
        simp [getHistoricalFeatures, uploadEntityDfAndGetSchema, entityDfTypeName]
      | other t =>
        simp [getHistoricalFeatures, uploadEntityDfAndGetSchema, entityDfTypeName]

theorem sourceAndEntityTypeErrorsWitness :
    isTrinoOfflineStoreConfig (OfflineStoreConfigObj.trino "localhost" 8080 "memory" "feast")
      = true ∧
    (((pullLatestFromTableOrQuery (OfflineStoreConfigObj.other "FileOfflineStoreConfig")
        (DataSourceObj.trino { tableQueryString := "db.tbl" }) ["driver_id"] ["conv_rate"]
        "event_timestamp" none "2021-01-01" "2021-01-02").isOk = true ↔
      (isTrinoSource (DataSourceObj.trino { tableQueryString := "db.tbl" }) = true ∧
        isTrinoOfflineStoreConfig (OfflineStoreConfigObj.other "FileOfflineStoreConfig")
          = true)) ∧
    ((getHistoricalFeatures (OfflineStoreConfigObj.trino "localhost" 8080 "memory" "feast")
        EntityDfObj.dataFrame "memory.feast.entity_df" "SELECT 1" false []).isOk = true ↔
      isQueryStringDf EntityDfObj.dataFrame = true) ∧
    (isQueryStringDf EntityDfObj.dataFrame = false →
      getHistoricalFeatures (OfflineStoreConfigObj.trino "localhost" 8080 "memory" "feast")
        EntityDfObj.dataFrame "memory.feast.entity_df" "SELECT 1" false [] =
        Except.error (invalidEntityTypeMsg (entityDfTypeName EntityDfObj.dataFrame)))) :=
  ⟨rfl, sourceAndEntityTypeErrors (OfflineStoreConfigObj.other "FileOfflineStoreConfig")
    (OfflineStoreConfigObj.trino "localhost" 8080 "memory" "feast")
    (DataSourceObj.trino { tableQueryString := "db.tbl" }) ["driver_id"] ["conv_rate"]
    "event_timestamp" none "2021-01-01" "2021-01-02" EntityDfObj.dataFrame
    "memory.feast.entity_df" "SELECT 1" false [] rfl⟩

/-- C9: each feature view's entity-row unique id is the concatenation of that
view's join-key values cast to text followed by the entity event timestamp
cast to text, and for a view with an empty entities list the computed id and
the base-join condition coincide with the spec's sentinel-entity reading —
the substituted dummy join key carries `DUMMY_ENTITY_VAL` (the empty string),
so it participates in the unique id as an empty prefix and in the join as an
always-true equality on the sentinel value. -/
theorem entityRowUniqueIdConcat (tsCol : String) (F : FeatureViewContext) (r : Row)
    (full : Bool) (srow rrow : Row) :
    entityRowUniqueId tsCol F r = entityRowUniqueIdSpec tsCol F r ∧
    baseJoinCond F (projSub full F srow) (projEntity tsCol F rrow) =
      baseJoinCondSpec F (projSub full F srow) (projEntity tsCol F rrow) := by
  constructor
  · unfold entityRowUniqueId entityRowUniqueIdSpec DUMMY_ENTITY_VAL
    by_cases h : F.entities.isEmpty
    · simp [h, String.empty_append]
    · simp [h]
  · unfold baseJoinCond baseJoinCondSpec
    by_cases h : F.entities.isEmpty
    · have he : F.entities = [] := by
        cases hl : F.entities with
        | nil => rfl
        | cons x xs => rw [hl] at h; simp at h
      simp [h, he, projSub, projEntity]
    · simp [h]

/-- C10: every retrieval job returned by `pull_latest_from_table_or_query`
has `full_feature_names = False` and `on_demand_feature_views = None`,
regardless of all inputs. -/
theorem pullLatestJobDefaults (config : OfflineStoreConfigObj) (dataSource : DataSourceObj)
    (jks fns : List String) (etsCol : String) (ctsCol : Option String)
    (startDate endDate : String) (job : TrinoRetrievalJob)
    (h : pullLatestFromTableOrQuery config dataSource jks fns etsCol ctsCol startDate endDate
      = Except.ok job) :
    job.fullFeatureNames = false ∧ job.onDemandFeatureViews = none := by
  cases dataSource with
  | other t => simp [pullLatestFromTableOrQuery] at h
  | trino src =>
    cases config with
    | other t => simp [pullLatestFromTableOrQuery] at h
    | trino a b c d =>
      simp only [pullLatestFromTableOrQuery, Except.ok.injEq] at h
      rw [← h]
      exact ⟨rfl, rfl⟩

theorem pullLatestJobDefaultsWitness :
    pullLatestFromTableOrQuery (OfflineStoreConfigObj.trino "localhost" 8080 "memory" "feast")
        (DataSourceObj.trino { tableQueryString := "db.tbl" }) ["driver_id"] ["conv_rate"]
        "event_timestamp" none "2021-01-01" "2021-01-02" =
      Except.ok { queryText := pullLatestQueryText "db.tbl" ["driver_id"] ["conv_rate"]
                    "event_timestamp" none "2021-01-01" "2021-01-02"
                  fullFeatureNames := false
                  onDemandFeatureViews := none } ∧
    (({ queryText := pullLatestQueryText "db.tbl" ["driver_id"] ["conv_rate"]
          "event_timestamp" none "2021-01-01" "2021-01-02"
        fullFeatureNames := false
        onDemandFeatureViews := none } : TrinoRetrievalJob).fullFeatureNames = false ∧
      ({ queryText := pullLatestQueryText "db.tbl" ["driver_id"] ["conv_rate"]
           "event_timestamp" none "2021-01-01" "2021-01-02"
         fullFeatureNames := false
         onDemandFeatureViews := none } : TrinoRetrievalJob).onDemandFeatureViews = none) :=
  ⟨rfl, pullLatestJobDefaults (OfflineStoreConfigObj.trino "localhost" 8080 "memory" "feast")
    (DataSourceObj.trino { tableQueryString := "db.tbl" }) ["driver_id"] ["conv_rate"]
    "event_timestamp" none "2021-01-01" "2021-01-02" _ rfl⟩

theorem pointInTimeJoinKeepsPairIffWitness :
    (exSrc1 ∈ [exSrc1]) ∧ (exRow0 ∈ [exRow0]) ∧
    ((projSub false exView exSrc1, projEntity "ts" exView exRow0) ∈
        basePairs false exView "ts" [exRow0] [exSrc1] ↔
      (exView.entities.map exSrc1 = exView.entities.map exRow0 ∧
       exSrc1 exView.eventTimestampColumn ≤ exRow0 "ts" ∧
       (exView.ttl = 0 ∨
         exRow0 "ts" - (exView.ttl : Int) ≤ exSrc1 exView.eventTimestampColumn))) :=
  ⟨List.mem_singleton.mpr rfl, List.mem_singleton.mpr rfl,
    pointInTimeJoinKeepsPairIff false exView "ts" [exRow0] [exSrc1] exSrc1 exRow0
      (List.mem_singleton.mpr rfl) (List.mem_singleton.mpr rfl)⟩

theorem sourcePrefilterWindowWitness :
    aggMax ([exRow0].map (fun r => r "ts")) = some 0 ∧
    aggMin ([exRow0].map (fun r => r "ts")) = some 0 ∧
    (exSrc1 ∈ [exSrc1].filter (prefilterCond exView "ts" [exRow0]) ↔
      exSrc1 ∈ [exSrc1] ∧ exSrc1 exView.eventTimestampColumn ≤ 0 ∧
        (exView.ttl = 0 ∨ 0 - (exView.ttl : Int) ≤ exSrc1 exView.eventTimestampColumn)) :=
  ⟨rfl, rfl, sourcePrefilterWindow exView "ts" [exRow0] [exSrc1] 0 0 rfl rfl exSrc1⟩

end FeastTrino
